import Mathlib

/-!
Shallow embedding of the Bentley-Ottmann-style trapezoidation attempt in
`src/bo_trap.rs` of the cairus repository.

Coordinates are modelled with `ℚ` in place of Rust `f32`: every concrete input
used below has small integer coordinates, where `f32` arithmetic is exact, and
the `partial_cmp(..).unwrap_or(Equal)` comparisons in the source collapse to the
total order on `ℚ` (no NaN can arise for these inputs).

The geometry primitives (`Point`, `LineSegment`, `Edge`) live in the repository
file `common_geometry.rs`, and `Trapezoid` in `trapezoid_rasterizer.rs`; neither
file is part of the provided sources, so those definitions are modelled from the
spec (section 3, DATA MODEL).  Everything else is translated directly from
`src/bo_trap.rs`.
-/

namespace BoTrap

/-- Modelled from the spec: `Point` from the missing `common_geometry.rs` —
"(x, y) in floating coordinates" (spec section 3). -/
structure Point where
  x : ℚ
  y : ℚ
deriving DecidableEq, Repr

/-- Modelled from the spec: `LineSegment` from the missing `common_geometry.rs` —
"two endpoints; derived operations: slope, minimum-y endpoint, x-at-given-y"
(spec section 3).  Structural equality, matching a derived Rust `PartialEq`. -/
structure LineSegment where
  point1 : Point
  point2 : Point
deriving DecidableEq, Repr

/-- Modelled from the spec: slope of a `LineSegment` (rise over run).  For a
vertical segment Rust `f32` gives `±inf` while `ℚ` division by zero gives `0`;
no theorem below depends on the slope of a vertical or degenerate segment. -/
def LineSegment.slope (l : LineSegment) : ℚ :=
  (l.point2.y - l.point1.y) / (l.point2.x - l.point1.x)

/-- Modelled from the spec: the "minimum-y endpoint" operation of
`LineSegment` (spec section 3); `point1` wins ties. -/
def LineSegment.min_y_point (l : LineSegment) : Point :=
  if l.point1.y ≤ l.point2.y then l.point1 else l.point2

/-- Modelled from the spec: the minimum-x endpoint of a `LineSegment`,
the analogue of `min_y_point` used by `scan` (`min_x_point` in the source);
`point1` wins ties. -/
def LineSegment.min_x_point (l : LineSegment) : Point :=
  if l.point1.x ≤ l.point2.x then l.point1 else l.point2

/-- Modelled from the spec: `Edge` from the missing `common_geometry.rs` —
"a LineSegment plus top (min y of its endpoints), bottom (max y), and
direction ∈ \x7b-1, 0, +1\x7d" (spec section 3). -/
structure Edge where
  line : LineSegment
  top : ℚ
  bottom : ℚ
  direction : Int
deriving DecidableEq, Repr

/-- Modelled from the spec: `Trapezoid` from the missing
`trapezoid_rasterizer.rs` — "left LineSegment, right LineSegment, top y,
bottom y" (spec section 3). -/
structure Trapezoid where
  left : LineSegment
  right : LineSegment
  top : ℚ
  bottom : ℚ
deriving DecidableEq, Repr

/-- `EventType` enum from `bo_trap.rs` (lines 124-129). -/
inductive EventType where
  | Start
  | End
  | Intersection
deriving DecidableEq, Repr

/-- `impl Ord for EventType` (`bo_trap.rs` lines 137-160), the explicit match
table: `End < Intersection < Start`. -/
def EventType.cmp (a b : EventType) : Ordering :=
  match a with
  | .Start =>
    match b with
    | .Start => .eq
    | .End => .gt
    | .Intersection => .gt
  | .End =>
    match b with
    | .Start => .lt
    | .End => .eq
    | .Intersection => .lt
  | .Intersection =>
    match b with
    | .Start => .lt
    | .End => .gt
    | .Intersection => .eq

/-- `Event` struct from `bo_trap.rs` (lines 162-167). -/
structure Event where
  edge_left : Edge
  edge_right : Option Edge
  point : Point
  event_type : EventType
deriving DecidableEq, Repr

/-- Model of Rust `partial_cmp(..).unwrap_or(Ordering::Equal)` on coordinates:
the total comparison on `ℚ` (the `unwrap_or` arm is for NaN only). -/
def qcompare (a b : ℚ) : Ordering :=
  if a < b then .lt else if a = b then .eq else .gt

/-- `impl Ord for Event` (`bo_trap.rs` lines 175-193): compare by `point.y`,
then `point.x`, then event type; an *equal* type comparison is turned into
`Ordering::Greater`. -/
def Event.cmp (e1 e2 : Event) : Ordering :=
  let y_compare := qcompare e1.point.y e2.point.y
  if y_compare ≠ .eq then y_compare
  else
    let x_compare := qcompare e1.point.x e2.point.x
    if x_compare ≠ .eq then x_compare
    else
      let type_compare := EventType.cmp e1.event_type e2.event_type
      if type_compare = .eq then .gt else type_compare

/-- `impl PartialEq for Event` (`bo_trap.rs` lines 196-200): the body is
literally `true`. -/
def Event.eq (e1 e2 : Event) : Bool :=
  true

/-- `Event::new` (`bo_trap.rs` lines 204-213): `edge_right` is always `None`. -/
def Event.new (edge_left : Edge) (point : Point) (event_type : EventType) : Event :=
  { edge_left := edge_left, edge_right := none, point := point, event_type := event_type }

/-- Model of `Vec::sort` as used on events (`bo_trap.rs` line 258): one
insertion step of a stable comparison sort, placing `e` before the first
element it compares `Less` than (`Event.cmp e f ≠ .gt`; the comparator never
returns `eq`, see `Event.cmp`). -/
def insertEv (e : Event) : List Event → List Event
  | [] => [e]
  | f :: fs => if Event.cmp e f ≠ .gt then e :: f :: fs else f :: insertEv e fs

/-- Model of `events.sort()` (`bo_trap.rs` line 258): stable insertion sort by
`Event.cmp`.  Rust's slice sort is a stable merge sort; on any input whose
comparator is consistent the two agree, and both produce a list that is weakly
sorted by the (y, x, kind-rank) key (proved below), which is the only property
any theorem here uses. -/
def sortEvents : List Event → List Event
  | [] => []
  | e :: es => insertEv e (sortEvents es)

/-- `event_list_from_edges` (`bo_trap.rs` lines 215-260).  Note the two `if`
blocks are *not* exclusive in the source: a horizontal edge (`top == bottom`)
falls through into the `edge.top == edge.line.point1.y` block as well and gets
a second Start/End pair. -/
def event_list_from_edges (edges : List Edge) : List Event :=
  let events := edges.foldl
    (fun acc edge =>
      let acc1 :=
        if edge.top = edge.bottom then
          if edge.line.point1.x < edge.line.point2.x then
            acc ++ [Event.new edge ⟨edge.line.point1.x, edge.line.point1.y⟩ .Start,
                    Event.new edge ⟨edge.line.point2.x, edge.line.point2.y⟩ .End]
          else
            acc ++ [Event.new edge ⟨edge.line.point2.x, edge.line.point2.y⟩ .Start,
                    Event.new edge ⟨edge.line.point1.x, edge.line.point1.y⟩ .End]
        else acc
      if edge.top = edge.line.point1.y then
        acc1 ++ [Event.new edge ⟨edge.line.point1.x, edge.line.point1.y⟩ .Start,
                 Event.new edge ⟨edge.line.point2.x, edge.line.point2.y⟩ .End]
      else
        acc1 ++ [Event.new edge ⟨edge.line.point2.x, edge.line.point2.y⟩ .Start,
                 Event.new edge ⟨edge.line.point1.x, edge.line.point1.y⟩ .End])
    []
  sortEvents events

/-- `ScanLineEdge` struct from `bo_trap.rs` (lines 273-278). -/
structure ScanLineEdge where
  top : ℚ
  left : ℚ
  line : LineSegment
deriving DecidableEq, Repr

/-- `ScanLineEdge::new` (`bo_trap.rs` lines 281-287). -/
def ScanLineEdge.new (top left : ℚ) (line : LineSegment) : ScanLineEdge :=
  { top := top, left := left, line := line }

/-- `ScanLineEdge::current_x_for_y` (`bo_trap.rs` lines 290-293):
`(y - min.y) / slope + min.x` where `min` is the line's minimum-y endpoint. -/
def ScanLineEdge.current_x_for_y (e : ScanLineEdge) (y : ℚ) : ℚ :=
  let min := e.line.min_y_point
  (y - min.y) / e.line.slope + min.x

/-- `Comparator` enum from `bo_trap.rs` (lines 464-470). -/
inductive Comparator where
  | Greater
  | Less
  | Equal
  | Empty
deriving DecidableEq, Repr

/-- `find_line_place` (`bo_trap.rs` lines 474-502): `Equal` when the query line
equals the candidate record's line (the duplicate case); otherwise compare the
query point's x with the candidate's x at that y, breaking an exact tie by
slope. -/
def find_line_place (point : Point) (line : LineSegment) (next_sl_edge : ScanLineEdge) :
    Comparator :=
  let next_line := next_sl_edge.line
  if line = next_line then .Equal
  else
    let next_x := next_sl_edge.current_x_for_y point.y
    if point.x = next_x then
      if line.slope > next_line.slope then .Greater else .Less
    else if point.x > next_x then .Greater
    else .Less

/-- The live Start-case insertion of `scan` (`bo_trap.rs` lines 376-392).
After `cursor.reset()`, the cursor advances while `find_line_place` reports
`Greater` on the next record (stopping at the end of the list), then inserts
unconditionally at the cursor — including when the walk stopped on `Equal`
(the duplicate case).  On an empty list, it inserts directly. -/
def startInsert (point : Point) (line : LineSegment) (sl_edge : ScanLineEdge) :
    List ScanLineEdge → List ScanLineEdge
  | [] => [sl_edge]
  | c :: rest =>
    if find_line_place point line c = .Greater then c :: startInsert point line sl_edge rest
    else sl_edge :: c :: rest

/-- Result of the End-case search loop of `scan`: the cursor position at which
the loop broke (`foundAt` for `Comparator::Equal`, `bailAt` for the
"Failed to remove" break on `Less`/`Empty`), a panic from
`cursor.peek_next().unwrap()` on an empty list, or fuel exhaustion — the
loop in the source has no other exit and can run forever. -/
inductive EndSearch where
  | foundAt (pos : Nat)
  | bailAt (pos : Nat)
  | panicked
  | fuelOut
deriving DecidableEq, Repr

/-- The End-case search loop of `scan` (`bo_trap.rs` lines 414-441), with the
cursor of the `linked_list` crate modelled as a position `pos ∈ [0, length]`
(`length` being the "ghost" slot between tail and head; `reset` puts the
cursor at `0`, `prev` at `0` wraps to the ghost, `prev` at the ghost moves
before the last element).  Each iteration: if `peek_next` is `none`
(`pos ≥ length`) step back once; then examine the next record —
`unwrap` panics when the list is empty.  `Equal` breaks (the record is then
removed), `Greater` moves the cursor back (the second
`else if result == Comparator::Greater` arm in the source is unreachable, so
`Less` falls into the final "Failed to remove" break, after which the source
still calls `cursor.remove()`), and the loop repeats. -/
def endFind (l : List ScanLineEdge) (pt : Point) (ln : LineSegment) :
    Nat → Nat → EndSearch
  | 0, _ => .fuelOut
  | fuel + 1, pos =>
    if l.length = 0 then .panicked
    else
      let pos1 := if pos ≥ l.length then l.length - 1 else pos
      match find_line_place pt ln (l.getD pos1 (ScanLineEdge.new 0 0 ⟨⟨0, 0⟩, ⟨0, 0⟩⟩)) with
      | .Equal => .foundAt pos1
      | .Greater => endFind l pt ln fuel (if pos1 = 0 then l.length else pos1 - 1)
      | .Less => .bailAt pos1
      | .Empty => .bailAt pos1

/-- Outcome of `scan`: a normal return (the Rust function's only return
expression is `Vec::new()`, so the payload of `ok` is the returned trapezoid
list), a panic, or non-termination of the End-case search loop (surfaced as
fuel exhaustion). -/
inductive ScanResult where
  | ok (traps : List Trapezoid)
  | panicked
  | fuelOut
deriving DecidableEq, Repr

/-- The event loop of `scan` (`bo_trap.rs` lines 320-458).  Both the Start and
the End handler begin with `cursor.reset()`, so only the scan-line list
survives between events.  A Start event builds a `ScanLineEdge` from the
current `scan_line` y and the line's minimum-x x and inserts it
(`startInsert`); an End event runs the search loop and then `cursor.remove()`
(`eraseIdx` at the break position); no other event kind is handled.  The
trailing `println!` loop over the list is side-effect free and omitted. -/
def scanGo (fuel : Nat) : List Event → List ScanLineEdge → ScanResult
  | [], _ => .ok []
  | event :: rest, sl_list =>
    let scan_line := event.point.y
    if event.event_type = .Start then
      let left := event.edge_left.line.min_x_point.x
      let sl_edge := ScanLineEdge.new scan_line left event.edge_left.line
      scanGo fuel rest (startInsert event.point event.edge_left.line sl_edge sl_list)
    else if event.event_type = .End then
      match endFind sl_list event.point event.edge_left.line fuel 0 with
      | .foundAt pos => scanGo fuel rest (sl_list.eraseIdx pos)
      | .bailAt pos => scanGo fuel rest (sl_list.eraseIdx pos)
      | .panicked => .panicked
      | .fuelOut => .fuelOut
    else
      scanGo fuel rest sl_list

/-- `scan` (`bo_trap.rs` lines 312-462): build the sorted event list, run the
event loop starting from the empty scan-line list, and return `Vec::new()`.
`fuel` bounds each run of the End-case search loop, which the source does not
otherwise bound. -/
def scan (edges : List Edge) (fuel : Nat) : ScanResult :=
  scanGo fuel (event_list_from_edges edges) []

/-- Rank of an event kind in the order the comparator implements:
`End < Intersection < Start`. -/
def kindRank : EventType → Nat
  | .End => 0
  | .Intersection => 1
  | .Start => 2

/-- Strict lexicographic order on the (y, x, kind-rank) key of an event. -/
def evKeyLt (e1 e2 : Event) : Prop :=
  e1.point.y < e2.point.y ∨
    (e1.point.y = e2.point.y ∧
      (e1.point.x < e2.point.x ∨
        (e1.point.x = e2.point.x ∧ kindRank e1.event_type < kindRank e2.event_type)))

/-- Weak lexicographic order on the (y, x, kind-rank) key of an event. -/
def evKeyLe (e1 e2 : Event) : Prop :=
  e1.point.y < e2.point.y ∨
    (e1.point.y = e2.point.y ∧
      (e1.point.x < e2.point.x ∨
        (e1.point.x = e2.point.x ∧ kindRank e1.event_type ≤ kindRank e2.event_type)))

/-- The kind tie-break of `Event.cmp`, rewritten through `kindRank`. -/
lemma typeTie (t1 t2 : EventType) :
    (if EventType.cmp t1 t2 = .eq then Ordering.gt else EventType.cmp t1 t2) =
      (if kindRank t1 < kindRank t2 then .lt else .gt) := by
  cases t1 <;> cases t2 <;> decide

/-- Closed form of `Event.cmp`: lexicographic on y, x, kind-rank, except that
a full tie yields `gt` instead of `eq`. -/
lemma eventCmp_eq (e1 e2 : Event) :
    Event.cmp e1 e2 =
      (if e1.point.y < e2.point.y then .lt
       else if e2.point.y < e1.point.y then .gt
       else if e1.point.x < e2.point.x then .lt
       else if e2.point.x < e1.point.x then .gt
       else if kindRank e1.event_type < kindRank e2.event_type then .lt
       else .gt) := by
  unfold Event.cmp qcompare
  rcases lt_trichotomy e1.point.y e2.point.y with hy | hy | hy
  · simp [hy]
  · rcases lt_trichotomy e1.point.x e2.point.x with hx | hx | hx
    · simp [hy, hx, lt_irrefl]
    · simp [hy, hx, lt_irrefl, typeTie]
    · simp [hy, hx, lt_irrefl, lt_asymm hx, ne_of_gt hx]
  · simp [hy, lt_asymm hy, ne_of_gt hy]

/-- `Event.cmp` never returns `eq`. -/
lemma eventCmp_ne_eq (e1 e2 : Event) : Event.cmp e1 e2 ≠ .eq := by
  rw [eventCmp_eq]
  split_ifs <;> simp

/-- `Event.cmp e1 e2 ≠ .gt` holds exactly when `e1`'s key is strictly below
`e2`'s. -/
lemma eventCmp_ne_gt_iff (e1 e2 : Event) : Event.cmp e1 e2 ≠ .gt ↔ evKeyLt e1 e2 := by
  rw [eventCmp_eq]
  unfold evKeyLt
  split_ifs with h1 h2 h3 h4 h5
  · exact iff_of_true (by decide) (Or.inl h1)
  · refine iff_of_false (by decide) ?_
    rintro (h | ⟨h, -⟩)
    · exact lt_asymm h2 h
    · exact absurd h (ne_of_gt h2)
  · have hy : e1.point.y = e2.point.y := le_antisymm (not_lt.mp h2) (not_lt.mp h1)
    exact iff_of_true (by decide) (Or.inr ⟨hy, Or.inl h3⟩)
  · refine iff_of_false (by decide) ?_
    rintro (h | ⟨-, h | ⟨h, -⟩⟩)
    · exact h1 h
    · exact lt_asymm h4 h
    · exact absurd h (ne_of_gt h4)
  · have hy : e1.point.y = e2.point.y := le_antisymm (not_lt.mp h2) (not_lt.mp h1)
    have hx : e1.point.x = e2.point.x := le_antisymm (not_lt.mp h4) (not_lt.mp h3)
    exact iff_of_true (by decide) (Or.inr ⟨hy, Or.inr ⟨hx, h5⟩⟩)
  · refine iff_of_false (by decide) ?_
    rintro (h | ⟨-, h | ⟨-, h⟩⟩)
    · exact h1 h
    · exact h3 h
    · exact h5 h

/-- Strict key order implies weak key order. -/
lemma evKeyLt_le {e1 e2 : Event} (h : evKeyLt e1 e2) : evKeyLe e1 e2 := by
  unfold evKeyLt at h
  unfold evKeyLe
  rcases h with h | ⟨hy, h⟩
  · exact Or.inl h
  · rcases h with h | ⟨hx, h⟩
    · exact Or.inr ⟨hy, Or.inl h⟩
    · exact Or.inr ⟨hy, Or.inr ⟨hx, Nat.le_of_lt h⟩⟩

/-- If `e1`'s key is not strictly below `e2`'s, then `e2`'s key is weakly
below `e1`'s. -/
lemma evKeyLe_of_not_lt {e1 e2 : Event} (h : ¬ evKeyLt e1 e2) : evKeyLe e2 e1 := by
  unfold evKeyLt at h
  push_neg at h
  obtain ⟨hy, hrest⟩ := h
  unfold evKeyLe
  rcases lt_or_eq_of_le hy with hy' | hy'
  · exact Or.inl hy'
  · obtain ⟨hx, hrank⟩ := hrest hy'.symm
    refine Or.inr ⟨hy', ?_⟩
    rcases lt_or_eq_of_le hx with hx' | hx'
    · exact Or.inl hx'
    · exact Or.inr ⟨hx', hrank hx'.symm⟩

/-- Transitivity of the weak key order. -/
lemma evKeyLe_trans {a b c : Event} (h1 : evKeyLe a b) (h2 : evKeyLe b c) :
    evKeyLe a c := by
  unfold evKeyLe at h1 h2 ⊢
  rcases h1 with h1 | ⟨hy1, h1⟩
  · rcases h2 with h2 | ⟨hy2, h2⟩
    · exact Or.inl (h1.trans h2)
    · exact Or.inl (hy2 ▸ h1)
  · rcases h2 with h2 | ⟨hy2, h2⟩
    · exact Or.inl (hy1 ▸ h2)
    · refine Or.inr ⟨hy1.trans hy2, ?_⟩
      rcases h1 with h1 | ⟨hx1, h1⟩
      · rcases h2 with h2 | ⟨hx2, h2⟩
        · exact Or.inl (h1.trans h2)
        · exact Or.inl (hx2 ▸ h1)
      · rcases h2 with h2 | ⟨hx2, h2⟩
        · exact Or.inl (hx1 ▸ h2)
        · exact Or.inr ⟨hx1.trans hx2, h1.trans h2⟩

/-- Membership in the insertion step. -/
lemma mem_insertEv {a e : Event} : ∀ {l : List Event}, a ∈ insertEv e l ↔ a = e ∨ a ∈ l := by
  intro l
  induction l with
  | nil => simp [insertEv]
  | cons f fs ih =>
    unfold insertEv
    split
    · simp
    · simp only [List.mem_cons, ih]
      tauto

/-- Insertion preserves weak key-sortedness. -/
lemma pairwise_insertEv {e : Event} :
    ∀ {l : List Event}, l.Pairwise evKeyLe → (insertEv e l).Pairwise evKeyLe := by
  intro l
  induction l with
  | nil => simp [insertEv]
  | cons f fs ih =>
    intro h
    rw [List.pairwise_cons] at h
    obtain ⟨hf, hfs⟩ := h
    unfold insertEv
    split
    case isTrue hle =>
      have hef : evKeyLt e f := (eventCmp_ne_gt_iff e f).mp hle
      rw [List.pairwise_cons]
      refine ⟨?_, List.pairwise_cons.mpr ⟨hf, hfs⟩⟩
      intro x hx
      rcases List.mem_cons.mp hx with rfl | hx
      · exact evKeyLt_le hef
      · exact evKeyLe_trans (evKeyLt_le hef) (hf x hx)
    case isFalse hgt =>
      have hnlt : ¬ evKeyLt e f := fun hk => hgt ((eventCmp_ne_gt_iff e f).mpr hk)
      have hfe : evKeyLe f e := evKeyLe_of_not_lt hnlt
      rw [List.pairwise_cons]
      refine ⟨?_, ih hfs⟩
      intro x hx
      rcases mem_insertEv.mp hx with rfl | hx
      · exact hfe
      · exact hf x hx

/-- The modelled `events.sort()` produces a list that is weakly sorted by the
(y, x, kind-rank) key. -/
lemma sorted_sortEvents : ∀ l : List Event, (sortEvents l).Pairwise evKeyLe := by
  intro l
  induction l with
  | nil => exact List.Pairwise.nil
  | cons e es ih => exact pairwise_insertEv ih

/-- At a shared point, weak key order is exactly kind-rank order. -/
lemma evKeyLe_rank {e1 e2 : Event} (h : evKeyLe e1 e2) (hp : e1.point = e2.point) :
    kindRank e1.event_type ≤ kindRank e2.event_type := by
  unfold evKeyLe at h
  rcases h with h | ⟨hy, h⟩
  · rw [hp] at h
    exact absurd h (lt_irrefl _)
  · rcases h with h | ⟨hx, h⟩
    · rw [hp] at h
      exact absurd h (lt_irrefl _)
    · exact h

/-- Every normal return of the event loop is the empty trapezoid list: the
only `ok` value `scanGo` can produce is the `Vec::new()` at the end of
`scan`. -/
lemma scanGo_ok :
    ∀ (evs : List Event) (fuel : Nat) (l : List ScanLineEdge) (r : List Trapezoid),
      scanGo fuel evs l = .ok r → r = [] := by
  intro evs
  induction evs with
  | nil =>
    intro fuel l r h
    unfold scanGo at h
    exact (ScanResult.ok.inj h).symm
  | cons e rest ih =>
    intro fuel l r h
    simp only [scanGo] at h
    split_ifs at h with h1 h2
    · exact ih fuel _ r h
    · rcases hE : endFind l e.point e.edge_left.line fuel 0 with p | p | _ | _ <;>
        rw [hE] at h
      · exact ih fuel _ r h
      · exact ih fuel _ r h
      · cases h
      · cases h
    · exact ih fuel _ r h

/-- The clockwise unit-square input of the spec scenario (spec section 8):
left side (0,0)-(0,10) with direction -1, top (0,10)-(10,10) with direction 0,
right side (10,10)-(10,0) with direction +1, bottom (10,0)-(0,0) with
direction 0. -/
def squareEdges : List Edge :=
  [⟨⟨⟨0, 0⟩, ⟨0, 10⟩⟩, 0, 10, -1⟩,
   ⟨⟨⟨0, 10⟩, ⟨10, 10⟩⟩, 10, 10, 0⟩,
   ⟨⟨⟨10, 10⟩, ⟨10, 0⟩⟩, 0, 10, 1⟩,
   ⟨⟨⟨10, 0⟩, ⟨0, 0⟩⟩, 0, 0, 0⟩]

/-- A single zero-length edge: both endpoints are (3,4). -/
def zeroLenEdge : Edge := ⟨⟨⟨3, 4⟩, ⟨3, 4⟩⟩, 4, 4, 0⟩

/-- A slanted edge from (0,0) to (1,10), active during the sweep of
`loopEdges`. -/
def loopEdgeA : Edge := ⟨⟨⟨0, 0⟩, ⟨1, 10⟩⟩, 0, 10, 1⟩

/-- A right-to-left horizontal edge from (20,5) to (10,5); its spurious
second End event at (10,5) is processed while only `loopEdgeA` is active. -/
def loopEdgeH : Edge := ⟨⟨⟨20, 5⟩, ⟨10, 5⟩⟩, 5, 5, 0⟩

/-- Input on which the End-case search loop of `scan` never terminates. -/
def loopEdges : List Edge := [loopEdgeA, loopEdgeH]

/-- The scan-line record for `loopEdgeA` as built by the Start handler. -/
def loopRec : ScanLineEdge := ScanLineEdge.new 0 0 ⟨⟨0, 0⟩, ⟨1, 10⟩⟩

/-- A single left-to-right horizontal edge from (0,0) to (10,0). -/
def horizEdge : Edge := ⟨⟨⟨0, 0⟩, ⟨10, 0⟩⟩, 0, 0, 0⟩

/-- A single edge forming an open contour: (0,0) to (1,10). -/
def openEdge : Edge := ⟨⟨⟨0, 0⟩, ⟨1, 10⟩⟩, 0, 10, 1⟩

/-- A single edge from (0,0) to (2,10), a concrete input on which `scan`
returns normally. -/
def witEdges : List Edge := [⟨⟨⟨0, 0⟩, ⟨2, 10⟩⟩, 0, 10, 1⟩]

/-- On the singleton list holding `loopRec`, the search loop of the End case
started from cursor position 1 (the ghost slot) runs out of any amount of
fuel: `loopRec` always compares `Greater` against the query point (10,5) of
`loopEdgeH`, so the cursor cycles between the ghost slot and position 0. -/
lemma endFind_loop1 :
    ∀ n : Nat, endFind [loopRec] ⟨10, 5⟩ ⟨⟨20, 5⟩, ⟨10, 5⟩⟩ n 1 = .fuelOut := by
  intro n
  induction n with
  | zero => rfl
  | succ k ih =>
    rw [endFind]
    norm_num [loopRec, ScanLineEdge.new, find_line_place, ScanLineEdge.current_x_for_y,
      LineSegment.min_y_point, LineSegment.slope, List.getD]
    exact ih

/-- The same search loop started from cursor position 0 (where `reset` puts
it) also runs out of any amount of fuel. -/
lemma endFind_loop0 :
    ∀ n : Nat, endFind [loopRec] ⟨10, 5⟩ ⟨⟨20, 5⟩, ⟨10, 5⟩⟩ n 0 = .fuelOut := by
  intro n
  cases n with
  | zero => rfl
  | succ k =>
    rw [endFind]
    norm_num [loopRec, ScanLineEdge.new, find_line_place, ScanLineEdge.current_x_for_y,
      LineSegment.min_y_point, LineSegment.slope, List.getD]
    exact endFind_loop1 k

/-- An End event whose search loop exhausts its fuel makes the event loop
report fuel exhaustion. -/
lemma scanGo_end_fuelOut (fuel : Nat) (ev : Event) (rest : List Event)
    (l : List ScanLineEdge) (hty : ev.event_type = .End)
    (hf : endFind l ev.point ev.edge_left.line fuel 0 = .fuelOut) :
    scanGo fuel (ev :: rest) l = .fuelOut := by
  simp [scanGo, hty, hf]

/-- C1: the spec scenario says `scan` on the clockwise unit square — edges
(0,0)-(0,10) dir -1, (0,10)-(10,10) dir 0, (10,10)-(10,0) dir +1,
(10,0)-(0,0) dir 0 — returns exactly one trapezoid (left (0,0)-(0,10), right
(10,0)-(10,10), top 0, bottom 10).  The code instead panics: the bottom
horizontal edge (10,0)-(0,0) spuriously gets a second End event at (0,0),
which sorts first and is processed against the empty scan-line list, where
the End handler calls `cursor.peek_next().unwrap()` on `None`. -/
theorem C1_square_scan_panics : scan squareEdges 100 = .panicked := by
  decide

/-- C2: for every input edge list, whenever `scan` returns normally it
returns the empty trapezoid list — the function's only return expression is
`Vec::new()` and nothing in its body ever builds a trapezoid. -/
theorem C2_scan_always_empty :
    ∀ (edges : List Edge) (fuel : Nat) (r : List Trapezoid),
      scan edges fuel = .ok r → r = [] :=
  fun edges fuel r h => scanGo_ok (event_list_from_edges edges) fuel [] r h

/-- Witness for C2: on a single well-behaved edge, `scan` returns normally
and the returned list is empty. -/
theorem C2_scan_always_empty_witness :
    scan witEdges 5 = .ok [] ∧ ([] : List Trapezoid) = [] :=
  ⟨by decide, C2_scan_always_empty witEdges 5 [] (by decide)⟩

/-- C3: the claim says `scan` terminates for every finite edge list, and in
particular that the End-case search loop always terminates.  It does not:
on `loopEdges` the spurious second End event of the right-to-left horizontal
edge `loopEdgeH` is processed at (10,5) while only `loopEdgeA` is active;
`find_line_place` reports `Greater` at every cursor position (and the `Less`
arm of the loop is shadowed by a duplicated `Greater` condition), so the
cursor cycles forever: for every fuel bound the model runs out of fuel. -/
theorem C3_scan_runs_forever : ∀ fuel : Nat, scan loopEdges fuel = .fuelOut := by
  intro fuel
  show scanGo fuel (event_list_from_edges loopEdges) [] = .fuelOut
  rw [show event_list_from_edges loopEdges =
      Event.new loopEdgeA ⟨0, 0⟩ .Start ::
        Event.new loopEdgeH ⟨10, 5⟩ .End ::
          [Event.new loopEdgeH ⟨10, 5⟩ .Start,
           Event.new loopEdgeH ⟨20, 5⟩ .End,
           Event.new loopEdgeH ⟨20, 5⟩ .Start,
           Event.new loopEdgeA ⟨1, 10⟩ .End] from by decide]
  have h1 : scanGo fuel
      (Event.new loopEdgeA ⟨0, 0⟩ .Start ::
        Event.new loopEdgeH ⟨10, 5⟩ .End ::
          [Event.new loopEdgeH ⟨10, 5⟩ .Start,
           Event.new loopEdgeH ⟨20, 5⟩ .End,
           Event.new loopEdgeH ⟨20, 5⟩ .Start,
           Event.new loopEdgeA ⟨1, 10⟩ .End]) [] =
      scanGo fuel
        (Event.new loopEdgeH ⟨10, 5⟩ .End ::
          [Event.new loopEdgeH ⟨10, 5⟩ .Start,
           Event.new loopEdgeH ⟨20, 5⟩ .End,
           Event.new loopEdgeH ⟨20, 5⟩ .Start,
           Event.new loopEdgeA ⟨1, 10⟩ .End]) [loopRec] := by
    simp [scanGo, Event.new, loopEdgeA, loopRec, ScanLineEdge.new, startInsert,
      LineSegment.min_x_point]
  rw [h1]
  exact scanGo_end_fuelOut fuel _ _ _ rfl (endFind_loop0 fuel)

/-- C4: the claim says every edge contributes exactly one Start event (at its
topmost endpoint) and one End event (2n events for n edges), with a
horizontal edge's Start at its left endpoint.  For a horizontal edge the
code emits both the horizontal-branch pair and the unguarded general-branch
pair: a single horizontal edge yields 4 events (two Starts, two Ends). -/
theorem C4_horizontal_edge_four_events :
    (event_list_from_edges [horizEdge]).length = 4 ∧
    (event_list_from_edges [horizEdge]).countP
      (fun e => decide (e.event_type = EventType.Start)) = 2 ∧
    (event_list_from_edges [horizEdge]).countP
      (fun e => decide (e.event_type = EventType.End)) = 2 := by
  decide

/-- C5: event comparison is primarily by point y, then point x, then kind,
with the kind tie-break `End < Intersection < Start`; consequently the
sorted event list is weakly ordered by the (y, x, kind-rank) key, so among
events at the same point every End precedes every Intersection, which
precedes every Start. -/
theorem C5_event_order :
    (∀ e1 e2 : Event, e1.point.y < e2.point.y → Event.cmp e1 e2 = .lt) ∧
    (∀ e1 e2 : Event, e1.point.y = e2.point.y → e1.point.x < e2.point.x →
      Event.cmp e1 e2 = .lt) ∧
    (EventType.cmp .End .Intersection = .lt ∧ EventType.cmp .Intersection .Start = .lt ∧
      EventType.cmp .End .Start = .lt) ∧
    (∀ e1 e2 : Event, e1.point = e2.point → e1.event_type ≠ e2.event_type →
      Event.cmp e1 e2 = EventType.cmp e1.event_type e2.event_type) ∧
    (∀ l : List Event, (sortEvents l).Pairwise evKeyLe) ∧
    (∀ (l : List Event) (i j : Fin (sortEvents l).length), i < j →
      ((sortEvents l).get i).point = ((sortEvents l).get j).point →
      kindRank ((sortEvents l).get i).event_type ≤
        kindRank ((sortEvents l).get j).event_type) := by
  refine ⟨?_, ?_, by decide, ?_, sorted_sortEvents, ?_⟩
  · intro e1 e2 h
    rw [eventCmp_eq]
    simp [h]
  · intro e1 e2 hy hx
    rw [eventCmp_eq]
    simp [hy, hx, lt_irrefl]
  · intro e1 e2 hp hne
    obtain ⟨a1, b1, p1, t1⟩ := e1
    obtain ⟨a2, b2, p2, t2⟩ := e2
    simp only at hp hne ⊢
    subst hp
    rw [eventCmp_eq]
    simp only [lt_irrefl, if_false]
    cases t1 <;> cases t2 <;> simp_all [kindRank, EventType.cmp]
  · intro l i j hij hp
    exact evKeyLe_rank (List.pairwise_iff_get.mp (sorted_sortEvents l) i j hij) hp

/-- A dummy edge used by concrete witness events. -/
def dummyEdge : Edge := ⟨⟨⟨0, 0⟩, ⟨0, 0⟩⟩, 0, 0, 0⟩

/-- Witness for C5 at concrete events: a lower-y event compares `lt`; at
equal y a lower-x event compares `lt`; an End and a Start at the same point
compare by kind; and after sorting a Start and an End at the same point, the
earlier entry has the lower kind rank. -/
theorem C5_event_order_witness :
    Event.cmp (Event.new dummyEdge ⟨0, 0⟩ .Start) (Event.new dummyEdge ⟨0, 1⟩ .Start) = .lt ∧
    Event.cmp (Event.new dummyEdge ⟨0, 2⟩ .Start) (Event.new dummyEdge ⟨1, 2⟩ .Start) = .lt ∧
    Event.cmp (Event.new dummyEdge ⟨3, 3⟩ .End) (Event.new dummyEdge ⟨3, 3⟩ .Start) =
      EventType.cmp EventType.End EventType.Start ∧
    kindRank ((sortEvents [Event.new dummyEdge ⟨3, 3⟩ .Start,
        Event.new dummyEdge ⟨3, 3⟩ .End]).get ⟨0, by decide⟩).event_type ≤
      kindRank ((sortEvents [Event.new dummyEdge ⟨3, 3⟩ .Start,
        Event.new dummyEdge ⟨3, 3⟩ .End]).get ⟨1, by decide⟩).event_type :=
  ⟨C5_event_order.1 _ _ (by decide),
   C5_event_order.2.1 _ _ (by decide) (by decide),
   C5_event_order.2.2.2.1 _ _ (by decide) (by decide),
   C5_event_order.2.2.2.2.2 _ ⟨0, by decide⟩ ⟨1, by decide⟩ (by decide) (by decide)⟩

/-- C6: for any two events with equal point y, equal point x and equal kind —
in particular any event compared with itself — `Event.cmp` returns `gt`
rather than `eq`: the comparison is non-reflexive, so it is not a total
order. -/
theorem C6_cmp_non_reflexive :
    (∀ e1 e2 : Event, e1.point.y = e2.point.y → e1.point.x = e2.point.x →
      e1.event_type = e2.event_type → Event.cmp e1 e2 = .gt) ∧
    (∀ e : Event, Event.cmp e e = .gt) ∧
    (∀ e : Event, Event.cmp e e ≠ .eq) := by
  have h1 : ∀ e1 e2 : Event, e1.point.y = e2.point.y → e1.point.x = e2.point.x →
      e1.event_type = e2.event_type → Event.cmp e1 e2 = .gt := by
    intro e1 e2 hy hx ht
    rw [eventCmp_eq, hy, hx, ht]
    simp [lt_irrefl]
  refine ⟨h1, fun e => h1 e e rfl rfl rfl, fun e => ?_⟩
  rw [h1 e e rfl rfl rfl]
  decide

/-- Witness for C6: a concrete event compared with itself yields `gt`. -/
theorem C6_cmp_non_reflexive_witness :
    Event.cmp (Event.new dummyEdge ⟨1, 2⟩ .Start) (Event.new dummyEdge ⟨1, 2⟩ .Start) = .gt :=
  C6_cmp_non_reflexive.1 _ _ rfl rfl rfl

/-- C7: the `PartialEq` implementation for events returns `true`
unconditionally, for every pair of events, whatever their edges, points and
kinds — so event equality cannot distinguish any two events. -/
theorem C7_event_eq_always_true : ∀ e1 e2 : Event, Event.eq e1 e2 = true :=
  fun _ _ => rfl

/-- C8: the claim says a zero-length edge is tolerated with no failure.  It
is not: a zero-length edge takes both emission branches of
`event_list_from_edges`, producing two Start and two End events at the same
point; an End event sorts first and is processed against the empty scan-line
list, where the End handler calls `cursor.peek_next().unwrap()` on `None` —
a panic. -/
theorem C8_zero_length_edge_panics : scan [zeroLenEdge] 5 = .panicked := by
  decide

/-- The line (0,0)-(1,10), used to exhibit a duplicate insertion. -/
def c9line : LineSegment := ⟨⟨0, 0⟩, ⟨1, 10⟩⟩

/-- C9 counterexample: `find_line_place` does report `Equal` when the query
line equals the candidate record's line, but the live Start-case insertion
inserts anyway: starting from a list already holding a record for `c9line`,
the result holds two records with that same line. -/
theorem C9_duplicate_inserted :
    find_line_place ⟨0, 0⟩ c9line (ScanLineEdge.new 0 0 c9line) = .Equal ∧
    startInsert ⟨0, 0⟩ c9line (ScanLineEdge.new 0 0 c9line)
        [ScanLineEdge.new 0 0 c9line] =
      [ScanLineEdge.new 0 0 c9line, ScanLineEdge.new 0 0 c9line] ∧
    (startInsert ⟨0, 0⟩ c9line (ScanLineEdge.new 0 0 c9line)
        [ScanLineEdge.new 0 0 c9line]).countP
      (fun r => decide (r.line = c9line)) = 2 := by
  decide

/-- C9 amended: the Start-case insertion of `scan` never rejects a
duplicate — whatever the point, line and list, it inserts exactly one new
record (the list grows by one and the new record is a member), even when
`find_line_place` reports `Equal` for a record already wrapping the same
line; the duplicate-rejection logic exists only in commented-out code. -/
theorem C9_insert_unconditional :
    ∀ (p : Point) (ln : LineSegment) (sl : ScanLineEdge) (l : List ScanLineEdge),
      (startInsert p ln sl l).length = l.length + 1 ∧ sl ∈ startInsert p ln sl l := by
  intro p ln sl l
  induction l with
  | nil => simp [startInsert]
  | cons c rest ih =>
    unfold startInsert
    split
    · refine ⟨by simp [ih.1], List.mem_cons_of_mem c ih.2⟩
    · simp

/-- C10: the claim says that when the event queue empties with a non-empty
active-edge set (an open contour), `scan` surfaces a typed failure rather
than silently returning a partial or empty trapezoid list.  `scan` has no
failure path at all — its return type is a bare `Vec<Trapezoid>` — and on an
open-contour input it silently returns the empty list (the active list is
never inspected when the loop ends). -/
theorem C10_open_contour_silent_empty : scan [openEdge] 5 = .ok [] := by
  decide

end BoTrap
